import Mathlib

/-!
Verification of the `email-parser-fsm` crate: a DFA over `Char` that
recognises RFC 5322 `addr-spec` (a subset, no FWS/comments), together with
the `FromStr` driver that splits an accepted string at its first `@`.

The definitions below are a shallow embedding of `src/fsm.rs` and
`src/lib.rs`: every definition mirrors the Rust function of the same name.
-/

/-- The set of possible states in the DFA (`State` in `src/fsm.rs`).
`State.Error` is the dead (trap) state. -/
inductive State where
  | AddrSpec
  | LocalAtom
  | LocalQText
  | LocalDot
  | LocalEscape
  | LocalQString
  | LocalPart
  | DomainAtom
  | DomainDText
  | DomainDot
  | DomainLiteral
  | Error
deriving DecidableEq, Repr

/-- `State::DQUOTE` in `src/fsm.rs`. -/
def DQUOTE : Char := '"'

/-- `State::DOT` in `src/fsm.rs`. -/
def DOT : Char := '.'

/-- `State::BACKSLASH` in `src/fsm.rs`. -/
def BACKSLASH : Char := '\\'

/-- `State::AT` in `src/fsm.rs`. -/
def AT : Char := '@'

/-- `State::OPEN_BRACKET` in `src/fsm.rs`. -/
def OPEN_BRACKET : Char := '['

/-- `State::CLOSE_BRACKET` in `src/fsm.rs`. -/
def CLOSE_BRACKET : Char := ']'

/-- `State::is_atext` in `src/fsm.rs`: the literal list of symbols,
then the ranges A-Z, a-z, 0-9.  (The Rust list has no `|`.) -/
def is_atext (c : Char) : Bool :=
  let n : Nat := c.toNat
  c = '!'
    || c = '#'
    || c = '$'
    || c = '%'
    || c = '&'
    || n = 39      -- apostrophe
    || c = '*'
    || c = '+'
    || c = '-'
    || c = '/'
    || c = '='
    || c = '?'
    || c = '^'
    || c = '_'
    || n = 0x60    -- backtick
    || n = 0x7B    -- left curly bracket
    || n = 0x7D    -- right curly bracket
    || c = '~'
    || (0x41 ≤ n && n ≤ 0x5A) -- A-Z
    || (0x61 ≤ n && n ≤ 0x7A) -- a-z
    || (0x30 ≤ n && n ≤ 0x39) -- 0-9

/-- `State::is_qtext` in `src/fsm.rs`: code 33, 35-91, or 93-126. -/
def is_qtext (c : Char) : Bool :=
  let n : Nat := c.toNat
  n = 33 || (35 ≤ n && n ≤ 91) || (93 ≤ n && n ≤ 126)

/-- `State::is_dtext` in `src/fsm.rs`.  The Rust source joins the two
range checks with `&&`, exactly as reproduced here. -/
def is_dtext (c : Char) : Bool :=
  let n : Nat := c.toNat
  (33 ≤ n && n ≤ 90) && (94 ≤ n && n ≤ 126)

/-- `State::is_escape` in `src/fsm.rs`: VCHAR, SPACE or HTAB. -/
def is_escape (c : Char) : Bool :=
  let n : Nat := c.toNat
  (0x21 ≤ n && n ≤ 0x7E) || n = 0x20 || n = 0x09

/-- `State::transition` in `src/fsm.rs` (the `FSM` impl): one arm per
state, alternatives tried in the source order. -/
def transition (state : State) (c : Char) : State :=
  match state with
  | .AddrSpec =>
      if c = DQUOTE then .LocalQText
      else if is_atext c then .LocalAtom
      else .Error
  | .LocalAtom =>
      if c = DOT then .LocalDot
      else if c = AT then .LocalPart
      else if is_atext c then .LocalAtom
      else .Error
  | .LocalQText =>
      if c = BACKSLASH then .LocalEscape
      else if c = DQUOTE then .LocalQString
      else if is_qtext c then .LocalQText
      else .Error
  | .LocalDot =>
      if is_atext c then .LocalAtom else .Error
  | .LocalEscape =>
      if is_escape c then .LocalQText else .Error
  | .LocalQString =>
      if c = AT then .LocalPart else .Error
  | .LocalPart =>
      if c = OPEN_BRACKET then .DomainDText
      else if is_atext c then .DomainAtom
      else .Error
  | .DomainAtom =>
      if c = DOT then .DomainDot
      else if is_atext c then .DomainAtom
      else .Error
  | .DomainDText =>
      if c = CLOSE_BRACKET then .DomainLiteral
      else if is_dtext c then .DomainDText
      else .Error
  | .DomainDot =>
      if is_atext c then .DomainAtom else .Error
  | .DomainLiteral => .Error
  | .Error => .Error

/-- `State::is_final` in `src/fsm.rs`: `DomainLiteral` and `DomainAtom`
are the accepting states. -/
def is_final (state : State) : Bool :=
  match state with
  | .DomainLiteral | .DomainAtom => true
  | _ => false

/-- `State::start` in `src/fsm.rs`. -/
def start : State := State.AddrSpec

/-- Folding the transition function over an input, from a given state:
the state of `MachineIterator` after consuming the whole input. -/
def runFrom (st : State) (l : List Char) : State :=
  l.foldl transition st

/-- `Machine::new(s).into_iter().last()` in `src/fsm.rs`: `none` when the
input is empty, otherwise the state after the last transition. -/
def machineLast (l : List Char) : Option State :=
  match l with
  | [] => none
  | _ :: _ => some (runFrom start l)

/-- Rust `str::split_once(c)`: split at the first occurrence of `c`,
dropping that occurrence; `none` when `c` does not occur. -/
def splitOnce (l : List Char) (c : Char) : Option (List Char × List Char) :=
  match l with
  | [] => none
  | x :: xs =>
      if x = c then some ([], xs)
      else
        match splitOnce xs c with
        | some (a, b) => some (x :: a, b)
        | none => none

/-- The crate's `Error` enum in `src/lib.rs`. -/
inductive Error where
  | EmptyEmail
  | InvalidEmail
deriving DecidableEq, Repr

/-- The `Email` struct in `src/lib.rs`.  The Rust field `local` is named
`local_part` here because `local` is a Lean keyword. -/
structure Email where
  local_part : List Char
  domain : List Char
deriving DecidableEq, Repr

/-- `Email::from_str` in `src/lib.rs`.  The outer `Option` models the
`unwrap()` on `split_once('@')`: `none` is the panic path, `some` carries
the `Result` the Rust function returns. -/
def from_str (s : List Char) : Option (Except Error Email) :=
  match machineLast s with
  | none => some (.error .EmptyEmail)
  | some state =>
      if is_final state then
        match splitOnce s AT with
        | some (one, two) => some (.ok ⟨one, two⟩)
        | none => none
      else some (.error .InvalidEmail)

/-! ### Helper lemmas -/

lemma runFrom_nil (st : State) : runFrom st [] = st := rfl

lemma runFrom_cons (st : State) (c : Char) (xs : List Char) :
    runFrom st (c :: xs) = runFrom (transition st c) xs := rfl

lemma runFrom_append (st : State) (l r : List Char) :
    runFrom st (l ++ r) = runFrom (runFrom st l) r := by
  simp [runFrom, List.foldl_append]

lemma runFrom_error (l : List Char) : runFrom .Error l = .Error := by
  induction l with
  | nil => rfl
  | cons c xs ih => rw [runFrom_cons]; exact ih

/-- States at or beyond the `@` separator: `LocalPart` and everything on
the domain side.  Not a source function; used to trace reachability. -/
def afterAt (st : State) : Bool :=
  match st with
  | .LocalPart | .DomainAtom | .DomainDText | .DomainDot | .DomainLiteral => true
  | _ => false

lemma afterAt_step (st : State) (c : Char) (h : afterAt (transition st c) = true) :
    afterAt st = true ∨ c = AT := by
  cases st <;>
    first
      | (left; rfl)
      | (simp only [transition] at h; repeat' split at h) <;> simp_all [afterAt]

lemma afterAt_runFrom (l : List Char) :
    ∀ st, afterAt st = false → afterAt (runFrom st l) = true → AT ∈ l := by
  induction l with
  | nil =>
      intro st h1 h2
      rw [runFrom_nil] at h2
      rw [h1] at h2
      exact absurd h2 (by simp)
  | cons c xs ih =>
      intro st h1 h2
      rw [runFrom_cons] at h2
      by_cases hc : afterAt (transition st c) = true
      · rcases afterAt_step st c hc with h | h
        · rw [h1] at h; exact absurd h (by simp)
        · rw [h]; exact List.mem_cons_self _ _
      · exact List.mem_cons_of_mem _ (ih (transition st c) (by simpa using hc) h2)

lemma final_afterAt (st : State) (h : is_final st = true) : afterAt st = true := by
  cases st <;> simp_all [is_final, afterAt]

lemma accepted_mem (s : List Char) (h : is_final (runFrom start s) = true) :
    AT ∈ s :=
  afterAt_runFrom s start (by rfl) (final_afterAt _ h)

lemma mem_splitOnce (c : Char) :
    ∀ l : List Char, c ∈ l → ∃ a b, splitOnce l c = some (a, b) := by
  intro l
  induction l with
  | nil => intro h; exact absurd h (by simp)
  | cons x xs ih =>
      intro h
      by_cases hx : x = c
      · exact ⟨[], xs, by simp [splitOnce, hx]⟩
      · obtain ⟨a, b, hab⟩ := ih (by
          rcases List.mem_cons.mp h with h | h
          · exact absurd h.symm hx
          · exact h)
        exact ⟨x :: a, b, by simp [splitOnce, hx, hab]⟩

lemma splitOnce_eq (c : Char) :
    ∀ (l a b : List Char), splitOnce l c = some (a, b) → l = a ++ c :: b := by
  intro l
  induction l with
  | nil => intro a b h; exact absurd h (by simp [splitOnce])
  | cons x xs ih =>
      intro a b h
      simp only [splitOnce] at h
      split at h
      · have h1 : a = [] := congrArg Prod.fst (Option.some.inj h).symm
        have h2 : b = xs := congrArg Prod.snd (Option.some.inj h).symm
        subst h1; subst h2
        simp [*]
      · cases hs : splitOnce xs c with
        | none => rw [hs] at h; cases h
        | some p =>
            obtain ⟨p1, p2⟩ := p
            rw [hs] at h
            have h1 : x :: p1 = a := congrArg Prod.fst (Option.some.inj h)
            have h2 : p2 = b := congrArg Prod.snd (Option.some.inj h)
            subst h1; subst h2
            rw [ih p1 p2 hs]
            rfl

lemma from_str_cons (c : Char) (xs : List Char) :
    from_str (c :: xs) =
      (if is_final (runFrom start (c :: xs)) = true then
        (match splitOnce (c :: xs) AT with
          | some (a, b) => some (.ok ⟨a, b⟩)
          | none => none)
      else some (.error .InvalidEmail)) := rfl

lemma accepted_ok (s : List Char) (h : is_final (runFrom start s) = true) :
    ∃ e, from_str s = some (.ok e) := by
  have hmem : AT ∈ s := accepted_mem s h
  obtain ⟨a, b, hsplit⟩ := mem_splitOnce AT s hmem
  cases s with
  | nil => exact absurd hmem (by simp)
  | cons c xs =>
      exact ⟨⟨a, b⟩, by rw [from_str_cons, if_pos h, hsplit]⟩

lemma from_str_ok_eq (s : List Char) (e : Email)
    (h : from_str s = some (.ok e)) :
    s = e.local_part ++ AT :: e.domain := by
  cases s with
  | nil => exact absurd h (by simp [from_str, machineLast])
  | cons c xs =>
      rw [from_str_cons] at h
      split at h
      · cases hs : splitOnce (c :: xs) AT with
        | none => rw [hs] at h; cases h
        | some p =>
            obtain ⟨a, b⟩ := p
            rw [hs] at h
            have he : (⟨a, b⟩ : Email) = e := Except.ok.inj (Option.some.inj h)
            have := splitOnce_eq AT (c :: xs) a b hs
            rw [← he]
            exact this
      · cases h

/-- Local-part-side states reachable from `AddrSpec` on an unquoted
input before any `@` is consumed.  Not a source function. -/
def localSide (st : State) : Bool :=
  match st with
  | .LocalAtom | .LocalDot | .Error => true
  | _ => false

lemma localSide_step (st : State) (c : Char) (h : localSide st = true)
    (hc : c ≠ AT) : localSide (transition st c) = true := by
  cases st <;> simp [localSide] at h <;>
    · simp only [transition]
      repeat' split
      all_goals simp_all [localSide]

lemma localSide_runFrom (l : List Char) :
    ∀ st, localSide st = true → AT ∉ l → localSide (runFrom st l) = true := by
  induction l with
  | nil => intro st h _; exact h
  | cons c xs ih =>
      intro st h hnot
      rw [runFrom_cons]
      have hc : c ≠ AT := fun hce => hnot (hce ▸ List.mem_cons_self _ _)
      exact ih _ (localSide_step st c h hc) (fun hm => hnot (List.mem_cons_of_mem _ hm))

/-! ### Claim theorems -/

/-- C1: claimed: `is_dtext c` is true exactly for code points 33-90 or
94-126.  In the source the two range checks are joined by `&&`, so the
predicate is unsatisfiable: `is_dtext` returns `false` on every
character, including `'!'` (code 33) and `'a'` (code 97), which the
claim (and the crate's own DTEXT grammar comment) require to be true. -/
theorem c1_is_dtext_always_false :
    is_dtext '!' = false ∧ is_dtext 'a' = false ∧ ∀ c : Char, is_dtext c = false := by
  refine ⟨rfl, rfl, ?_⟩
  intro c
  simp only [is_dtext]
  rw [Bool.eq_false_iff]
  intro hcontra
  simp only [Bool.and_eq_true, decide_eq_true_eq] at hcontra
  omega

/-- C2: claimed: `"a@[192.168.1.1]"` is accepted via the domain-literal
path.  The code rejects it with `InvalidEmail`: because `is_dtext` is
always false, the run dies in `Error` at the first character after
`'['`. -/
theorem c2_domain_literal_example_rejected :
    from_str ("a@[192.168.1.1]".toList) = some (.error .InvalidEmail) := by rfl

/-- C4: claimed: `is_atext('|')` is true (the grammar's ATEXT contains
`|`).  The source's literal list omits `'|'`, so the code returns false;
the neighbouring set members behave as documented. -/
theorem c4_is_atext_pipe_missing :
    is_atext '|' = false ∧ is_atext (Char.ofNat 0x7B) = true ∧
      is_atext (Char.ofNat 0x7D) = true ∧ is_atext '~' = true ∧
      is_atext 'a' = true ∧ is_atext '0' = true := by
  refine ⟨rfl, rfl, rfl, rfl, rfl, rfl⟩

/-- C5: `DomainLiteral` is a true terminal: every symbol sends it to
`Error`; hence any input continuing past a closing `]` that reached
`DomainLiteral` ends in `Error`, and in particular `"a@[1]extra"` is
rejected with `InvalidEmail`. -/
theorem c5_domain_literal_terminal :
    (∀ c : Char, transition .DomainLiteral c = .Error) ∧
      (∀ (l : List Char) (c : Char) (r : List Char),
        runFrom start l = .DomainLiteral → runFrom start (l ++ c :: r) = .Error) ∧
      from_str ("a@[1]extra".toList) = some (.error .InvalidEmail) := by
  refine ⟨fun c => rfl, ?_, rfl⟩
  intro l c r h
  rw [runFrom_append, h, runFrom_cons]
  exact runFrom_error r

/-- Witness for C5: `"a@[]"` reaches `DomainLiteral`, and appending a
further character forces the run into `Error`. -/
theorem c5_domain_literal_terminal_witness :
    runFrom start ("a@[]".toList ++ 'x' :: []) = .Error :=
  c5_domain_literal_terminal.2.1 "a@[]".toList 'x' [] rfl

/-- C6: the `Error` state is absorbing: one step stays in `Error`, and
so does any remaining input. -/
theorem c6_error_absorbing :
    (∀ c : Char, transition .Error c = .Error) ∧
      ∀ l : List Char, runFrom .Error l = .Error :=
  ⟨fun _ => rfl, runFrom_error⟩

/-- C3 counterexample: the accepted input `"a@b"@c` (quoted local part)
contains an unescaped `@` inside the quotes, because `@` (code 64) is
qtext.  `split_once('@')` therefore cuts at index 2, inside the quoted
string: the prefix before the first `@` is `"a`, and the machine state
reached on that prefix (`LocalQText`) does not step to `LocalPart` on
`@`, so the first `@` is not the grammar's local-part/domain
separator. -/
theorem c3_first_at_counterexample :
    is_final (runFrom start ['"', 'a', '@', 'b', '"', '@', 'c']) = true ∧
      splitOnce ['"', 'a', '@', 'b', '"', '@', 'c'] AT =
        some (['"', 'a'], ['b', '"', '@', 'c']) ∧
      runFrom start ['"', 'a'] = .LocalQText ∧
      transition (runFrom start ['"', 'a']) AT ≠ .LocalPart := by
  refine ⟨rfl, rfl, rfl, ?_⟩
  intro h
  exact absurd h (by decide)

/-- C3 amended: for accepted inputs whose local part is unquoted (the
input does not start with `"`), the first `@` is indeed the local-part/
domain separator: the state reached on the prefix before the first `@`
steps to `LocalPart` on `@`.  (For quoted local parts the claim fails:
qtext contains `@`, see the counterexample.) -/
theorem c3_first_at_separator_unquoted :
    ∀ (l r : List Char), AT ∉ l → l.head? ≠ some DQUOTE →
      is_final (runFrom start (l ++ AT :: r)) = true →
      transition (runFrom start l) AT = .LocalPart := by
  intro l r hnotin hhead hfin
  have happ : runFrom start (l ++ AT :: r)
      = runFrom (transition (runFrom start l) AT) r := by
    rw [runFrom_append, runFrom_cons]
  cases l with
  | nil =>
      exfalso
      rw [happ] at hfin
      have h0 : transition (runFrom start ([] : List Char)) AT = .Error := rfl
      rw [h0, runFrom_error] at hfin
      exact absurd hfin (by decide)
  | cons c l2 =>
      have hcq : c ≠ DQUOTE := fun hce => hhead (by simp [hce])
      have h0 : localSide (transition start c) = true := by
        simp only [start, transition]
        rw [if_neg hcq]
        split <;> rfl
      have h1 : localSide (runFrom start (c :: l2)) = true := by
        rw [runFrom_cons]
        exact localSide_runFrom l2 _ h0 (fun hm => hnotin (List.mem_cons_of_mem _ hm))
      cases hE : runFrom start (c :: l2) with
      | LocalAtom => rfl
      | LocalDot =>
          exfalso
          rw [happ, hE] at hfin
          have h2 : transition .LocalDot AT = .Error := rfl
          rw [h2, runFrom_error] at hfin
          exact absurd hfin (by decide)
      | Error =>
          exfalso
          rw [happ, hE] at hfin
          have h2 : transition .Error AT = .Error := rfl
          rw [h2, runFrom_error] at hfin
          exact absurd hfin (by decide)
      | _ =>
          exfalso
          rw [hE] at h1
          exact absurd h1 (by simp [localSide])

/-- Witness for C3 amended: on the unquoted accepted input `a@b`, the
state before the first `@` steps to `LocalPart`. -/
theorem c3_first_at_separator_unquoted_witness :
    transition (runFrom start ['a']) AT = .LocalPart :=
  c3_first_at_separator_unquoted ['a'] ['b'] (by decide) (by decide) (by decide)

lemma from_str_nil : from_str [] = some (.error .EmptyEmail) := rfl

/-- C7: the conversion fails with `EmptyEmail` iff the input is empty,
fails with `InvalidEmail` iff the input is non-empty and the final state
is not accepting, succeeds otherwise, and never hits the panic path:
the two errors are the only failure kinds, returned as values. -/
theorem c7_from_str_classification :
    ∀ s : List Char,
      (from_str s = some (.error .EmptyEmail) ↔ s = []) ∧
      (from_str s = some (.error .InvalidEmail) ↔
        (s ≠ [] ∧ is_final (runFrom start s) = false)) ∧
      ((∃ e, from_str s = some (.ok e)) ↔
        (s ≠ [] ∧ is_final (runFrom start s) = true)) ∧
      from_str s ≠ none := by
  intro s
  cases s with
  | nil => refine ⟨?_, ?_, ?_, ?_⟩ <;> simp [from_str_nil, runFrom_nil, start, is_final]
  | cons c xs =>
      by_cases hf : is_final (runFrom start (c :: xs)) = true
      · obtain ⟨e, he⟩ := accepted_ok (c :: xs) hf
        refine ⟨?_, ?_, ?_, ?_⟩
        · rw [he]; simp
        · rw [he]; simp [hf]
        · simp [he, hf]
        · rw [he]; simp
      · have he : from_str (c :: xs) = some (.error .InvalidEmail) := by
          rw [from_str_cons, if_neg hf]
        rw [Bool.not_eq_true] at hf
        refine ⟨?_, ?_, ?_, ?_⟩
        · rw [he]; simp
        · rw [he]; simp [hf]
        · rw [he]; simp [hf]
        · rw [he]; simp

/-- C8: any string that validates into `(local, domain)` re-validates
when re-assembled as `local ++ "@" ++ domain` (indeed that string is the
original input, see C10). -/
theorem c8_roundtrip_revalidates :
    ∀ (s : List Char) (e : Email), from_str s = some (.ok e) →
      ∃ e2, from_str (e.local_part ++ AT :: e.domain) = some (.ok e2) := by
  intro s e h
  rw [← from_str_ok_eq s e h]
  exact ⟨e, h⟩

/-- Witness for C8 at the input `a@b`. -/
theorem c8_roundtrip_revalidates_witness :
    ∃ e2, from_str ((Email.mk ['a'] ['b']).local_part
      ++ AT :: (Email.mk ['a'] ['b']).domain) = some (.ok e2) :=
  c8_roundtrip_revalidates ['a', '@', 'b'] (Email.mk ['a'] ['b']) rfl

/-- C9: the `unwrap` on `split_once('@')` never panics: every input
whose final state is accepting contains an `@` (accepting states are
reachable only through `LocalPart`, entered only by consuming `@`), so
the split succeeds and `from_str` never takes the panic path. -/
theorem c9_accepting_contains_at :
    ∀ s : List Char, is_final (runFrom start s) = true →
      AT ∈ s ∧ from_str s ≠ none := by
  intro s h
  refine ⟨accepted_mem s h, ?_⟩
  obtain ⟨e, he⟩ := accepted_ok s h
  rw [he]
  simp

/-- Witness for C9 at the input `a@b`. -/
theorem c9_accepting_contains_at_witness :
    AT ∈ ['a', '@', 'b'] ∧ from_str ['a', '@', 'b'] ≠ none :=
  c9_accepting_contains_at ['a', '@', 'b'] rfl

/-- C10: a successful parse splits the input at its first `@` and copies
both halves unchanged, so `local ++ "@" ++ domain` is byte-for-byte the
original input. -/
theorem c10_concat_identity :
    ∀ (s : List Char) (e : Email), from_str s = some (.ok e) →
      e.local_part ++ AT :: e.domain = s := by
  intro s e h
  exact (from_str_ok_eq s e h).symm

/-- Witness for C10 at the input `a@b`. -/
theorem c10_concat_identity_witness :
    (Email.mk ['a'] ['b']).local_part ++ AT :: (Email.mk ['a'] ['b']).domain
      = ['a', '@', 'b'] :=
  c10_concat_identity ['a', '@', 'b'] (Email.mk ['a'] ['b']) rfl
